import Mathlib

/-!
Verification of the S3 upload scripts (`s3-upload-advanced.js` and the
companion basic upload script) against their natural-language specification.

The JavaScript sources are shallowly embedded as pure Lean functions:
* JS objects used as string-keyed records become association lists
  `List (String × α)` read through `jsLookup` (first binding wins, as in JS
  property access on objects built left to right);
* object spread `{ ...base, ...overrides }` becomes `mergeSpread`;
* a thrown JS exception becomes the `.error` branch of `Except String α`,
  carrying the error message;
* the filesystem and the external S3 client are oracles passed in as
  functions (`FileSys`, the `send` argument);
* wall-clock time is an explicit `elapsedMs : Nat` parameter.
-/

/-- Association-list lookup modelling JS object property access `obj[k]`:
the first binding for the key wins. -/
def jsLookup {α : Type} (k : String) : List (String × α) → Option α
  | [] => none
  | (k', v) :: rest => if k = k' then some v else jsLookup k rest

/-- Characters strictly after the last `/` (the whole list when there is no
slash): the accumulator is reset at every separator. -/
def lastSegment (cs : List Char) : List Char :=
  cs.foldl (fun acc c => if c = '/' then [] else acc ++ [c]) []

/-- `path.extname` needs the final path segment: characters after the last
slash (the whole string when there is no slash). -/
def basenameOf (p : String) : String :=
  String.mk (lastSegment p.toList)

/-- Index of the last `.` in a character list, if any. -/
def lastDotIdx (cs : List Char) : Option Nat :=
  ((cs.enum.filter (fun q => q.2 = '.')).map Prod.fst).getLast?

/-- Models Node's `path.extname`: the substring of the basename from its last
dot onward, or `""` when the basename has no dot or only a leading dot
(dotfiles such as `.bashrc` have no extension). Exotic all-dot basenames
(`".."`) differ from Node here, but both sides fall outside the content-type
table, so `getContentType` agrees with the source on every input. -/
def extnameOf (p : String) : String :=
  let b := (basenameOf p).toList
  match lastDotIdx b with
  | none => ""
  | some 0 => ""
  | some i => String.mk (b.drop i)

/-- Models JS `String.prototype.toLowerCase` on the ASCII extensions the
content-type table contains. -/
def toLowerStr (s : String) : String :=
  String.mk (s.toList.map Char.toLower)

/-- The static extension → MIME table from `getContentType`
(`s3-upload-advanced.js`, lines 147–168). -/
def contentTypes : List (String × String) :=
  [(".txt", "text/plain"),
   (".html", "text/html"),
   (".css", "text/css"),
   (".js", "application/javascript"),
   (".json", "application/json"),
   (".png", "image/png"),
   (".jpg", "image/jpeg"),
   (".jpeg", "image/jpeg"),
   (".gif", "image/gif"),
   (".svg", "image/svg+xml"),
   (".pdf", "application/pdf"),
   (".doc", "application/msword"),
   (".docx", "application/vnd.openxmlformats-officedocument.wordprocessingml.document"),
   (".xls", "application/vnd.ms-excel"),
   (".xlsx", "application/vnd.openxmlformats-officedocument.spreadsheetml.sheet"),
   (".zip", "application/zip"),
   (".mp4", "video/mp4"),
   (".mp3", "audio/mpeg"),
   (".wav", "audio/wav"),
   (".webm", "video/webm")]

/-- `getContentType(filePath)` from `s3-upload-advanced.js` (lines 145–171):
lowercased extension looked up in the static table, defaulting to
`application/octet-stream` (every table value is truthy, so JS `||`
is exactly the `none` fallback). -/
def getContentType (filePath : String) : String :=
  (jsLookup (toLowerStr (extnameOf filePath)) contentTypes).getD
    "application/octet-stream"

theorem jsLookup_eq_none_of_not_mem {α : Type} (k : String) :
    ∀ l : List (String × α), k ∉ l.map Prod.fst → jsLookup k l = none := by
  intro l
  induction l with
  | nil => intro _; rfl
  | cons hd tl ih =>
    intro hmem
    simp only [List.map_cons, List.mem_cons] at hmem
    push_neg at hmem
    simp only [jsLookup, if_neg hmem.1]
    exact ih hmem.2

theorem jsLookup_eq_some_of_mem {α : Type} (k : String) (t : α) :
    ∀ l : List (String × α), (l.map Prod.fst).Nodup → (k, t) ∈ l →
      jsLookup k l = some t := by
  intro l
  induction l with
  | nil => intro _ h; cases h
  | cons hd tl ih =>
    intro hnd hmem
    simp only [List.map_cons, List.nodup_cons] at hnd
    rcases List.mem_cons.mp hmem with heq | htl
    · cases heq
      simp [jsLookup]
    · have hk : k ≠ hd.1 := by
        intro h
        exact hnd.1 (h ▸ (List.mem_map.mpr ⟨(k, t), htl, rfl⟩))
      simp only [jsLookup, if_neg hk]
      exact ih hnd.2 htl

/-- C7: content-type resolution is a pure total function of the lowercased
file extension — extensions present in the static table map to exactly the
tabulated MIME value, any unknown or absent extension maps to
`application/octet-stream`, and two paths with the same lowercased extension
always resolve identically (the function is total by construction). -/
theorem getContentType_spec (p : String) :
    (∀ t, (toLowerStr (extnameOf p), t) ∈ contentTypes → getContentType p = t)
    ∧ (toLowerStr (extnameOf p) ∉ contentTypes.map Prod.fst →
        getContentType p = "application/octet-stream")
    ∧ (∀ q, toLowerStr (extnameOf q) = toLowerStr (extnameOf p) →
        getContentType q = getContentType p) := by
  refine ⟨?_, ?_, ?_⟩
  · intro t hmem
    have hnd : (contentTypes.map Prod.fst).Nodup := by decide
    unfold getContentType
    rw [jsLookup_eq_some_of_mem _ t contentTypes hnd hmem]
    rfl
  · intro hnot
    unfold getContentType
    rw [jsLookup_eq_none_of_not_mem _ contentTypes hnot]
    rfl
  · intro q hq
    unfold getContentType
    rw [hq]

/-- Witness for C7 at concrete inputs: a path with a known (mixed-case)
extension resolves to the tabulated value, and an extensionless path falls
back to the default type. -/
theorem getContentType_spec_witness :
    getContentType "docs/report.PDF" = "application/pdf"
    ∧ getContentType "Makefile" = "application/octet-stream" :=
  ⟨(getContentType_spec "docs/report.PDF").1 "application/pdf" (by decide),
   (getContentType_spec "Makefile").2.1 (by decide)⟩

/-- The request body handed to the S3 client: `fs.createReadStream(filePath)`
(a lazy byte source) or the buffered bytes of `fs.readFileSync(filePath)`. -/
inductive BodyVal where
  | streamOf (path : String)
  | bytesOf (path : String)
deriving DecidableEq

/-- A value stored in the `PutObjectCommand` parameter object. -/
inductive ParamValue where
  | str (s : String)
  | body (b : BodyVal)
  | meta (m : List (String × String))
deriving DecidableEq

/-- What `fs.statSync` reports for an existing file. -/
structure FileStat where
  size : Nat
deriving DecidableEq

/-- The local filesystem oracle: `some stat` when the path exists
(`fs.existsSync` true), `none` otherwise. -/
def FileSys := String → Option FileStat

/-- The `options` argument of `uploadFileToS3` (default `{}`). -/
structure UploadOptions where
  contentType : Option String := none
  metadata : Option (List (String × String)) := none
  additionalParams : List (String × ParamValue) := []

/-- Read-only configuration the module reads from the environment:
`BUCKET_NAME` and `process.env.AWS_REGION || 'eu-north-1'`. -/
structure S3Config where
  bucket : String
  region : String

/-- JS object spread `{ ...base, ...ov }`: every key of `base` keeps its
position but an override value wins, and keys only in `ov` are appended. -/
def mergeSpread {α : Type} (base ov : List (String × α)) : List (String × α) :=
  base.map (fun p => (p.1, (jsLookup p.1 ov).getD p.2))
    ++ ov.filter (fun p => (jsLookup p.1 base).isNone)

/-- Lines 44–46 of `s3-upload-advanced.js`: stream the file when its size
exceeds 5 MB, else read it whole into memory. -/
def fileContentFor (size : Nat) (filePath : String) : BodyVal :=
  if size > 5 * 1024 * 1024 then .streamOf filePath else .bytesOf filePath

/-- The object literal of lines 48–53 (before the `...options.additionalParams`
spread): Bucket, Key, Body, ContentType (override or resolved), Metadata. -/
def baseUploadParams (cfg : S3Config) (filePath s3Key : String)
    (stat : FileStat) (opts : UploadOptions) : List (String × ParamValue) :=
  [("Bucket", .str cfg.bucket),
   ("Key", .str s3Key),
   ("Body", .body (fileContentFor stat.size filePath)),
   ("ContentType", .str (opts.contentType.getD (getContentType filePath))),
   ("Metadata", .meta (opts.metadata.getD []))]

/-- The full `uploadParams` object of lines 48–55, including the trailing
`...options.additionalParams` spread. -/
def mkUploadParams (cfg : S3Config) (filePath s3Key : String)
    (stat : FileStat) (opts : UploadOptions) : List (String × ParamValue) :=
  mergeSpread (baseUploadParams cfg filePath s3Key stat opts)
    opts.additionalParams

/-- The structured result of `uploadFileToS3`: the success object
`{ success: true, s3Key, url, etag, duration }` or the failure object
`{ success: false, error, filePath }`. -/
inductive UploadResult where
  | success (s3Key url etag duration : String)
  | failure (error filePath : String)
deriving DecidableEq

/-- Models `((Date.now() - startTime) / 1000).toFixed(2)` for an exact
integer elapsed-millisecond count: seconds printed with two decimal digits,
rounding half up on the third decimal (binary floating-point artifacts of
the JS division are not modelled). -/
def toFixed2ofMs (ms : Nat) : String :=
  let c := (ms + 5) / 10
  toString (c / 100) ++ "." ++ (if c % 100 < 10 then "0" else "")
    ++ toString (c % 100)

/-- The `try` block of `uploadFileToS3` (lines 32–74): `.error msg` models a
thrown exception carrying `msg`. The S3 client is the oracle `send`, which
either yields the response ETag or raises; `elapsedMs` is the wall-clock
time the `send` call took. -/
def uploadFileToS3Body (cfg : S3Config) (fs : FileSys)
    (send : List (String × ParamValue) → Except String String)
    (elapsedMs : Nat) (filePath s3Key : String) (opts : UploadOptions) :
    Except String UploadResult :=
  match fs filePath with
  | none => .error ("File not found: " ++ filePath)
  | some stat =>
    match send (mkUploadParams cfg filePath s3Key stat opts) with
    | .error e => .error e
    | .ok etag =>
      .ok (.success s3Key
        ("https://" ++ cfg.bucket ++ ".s3." ++ cfg.region
          ++ ".amazonaws.com/" ++ s3Key)
        etag (toFixed2ofMs elapsedMs))

/-- `uploadFileToS3` (lines 31–83): the whole body runs inside
`try { ... } catch (error) { return { success: false, error: error.message,
filePath } }`, so every thrown error is converted into a failure result. -/
def uploadFileToS3 (cfg : S3Config) (fs : FileSys)
    (send : List (String × ParamValue) → Except String String)
    (elapsedMs : Nat) (filePath s3Key : String) (opts : UploadOptions) :
    UploadResult :=
  match uploadFileToS3Body cfg fs send elapsedMs filePath s3Key opts with
  | .ok r => r
  | .error e => .failure e filePath

theorem jsLookup_append_some {α : Type} (k : String) (v : α) :
    ∀ l₁ l₂ : List (String × α), jsLookup k l₁ = some v →
      jsLookup k (l₁ ++ l₂) = some v := by
  intro l₁ l₂
  induction l₁ with
  | nil => intro h; cases h
  | cons hd tl ih =>
    cases hd with
    | mk k' w =>
      intro h
      by_cases hk : k = k'
      · simp only [jsLookup, if_pos hk] at h
        simp only [List.cons_append, jsLookup, if_pos hk]
        exact h
      · simp only [jsLookup, if_neg hk] at h
        simp only [List.cons_append, jsLookup, if_neg hk]
        exact ih h

theorem jsLookup_append_none {α : Type} (k : String) :
    ∀ l₁ l₂ : List (String × α), jsLookup k l₁ = none →
      jsLookup k (l₁ ++ l₂) = jsLookup k l₂ := by
  intro l₁ l₂
  induction l₁ with
  | nil => intro _; rfl
  | cons hd tl ih =>
    cases hd with
    | mk k' w =>
      intro h
      by_cases hk : k = k'
      · simp [jsLookup, if_pos hk] at h
      · simp only [jsLookup, if_neg hk] at h
        simp only [List.cons_append, jsLookup, if_neg hk]
        exact ih h

theorem jsLookup_mapVals {α β : Type} (k : String) (g : String → α → β) :
    ∀ l : List (String × α),
      jsLookup k (l.map (fun p => (p.1, g p.1 p.2))) = (jsLookup k l).map (g k) := by
  intro l
  induction l with
  | nil => rfl
  | cons hd tl ih =>
    cases hd with
    | mk k' v =>
      by_cases hk : k = k'
      · subst hk; simp [jsLookup]
      · simp only [List.map_cons, jsLookup, if_neg hk]
        exact ih

theorem jsLookup_filter_key {α : Type} (k : String) (q : String → Bool) :
    ∀ l : List (String × α),
      jsLookup k (l.filter (fun p => q p.1)) =
        if q k then jsLookup k l else none := by
  intro l
  induction l with
  | nil => simp [jsLookup]
  | cons hd tl ih =>
    cases hd with
    | mk k' v =>
      by_cases hk : k = k'
      · subst hk
        cases hq : q k
        · simpa [List.filter, hq, jsLookup] using ih
        · simp [List.filter, hq, jsLookup]
      · cases hq : q k'
        · simp only [List.filter, hq]
          simpa [jsLookup, if_neg hk] using ih
        · simp only [List.filter, hq]
          simp only [jsLookup, if_neg hk]
          exact ih

/-- A key defined by the override object has the override's value in the
spread object, whatever the base object binds. -/
theorem mergeSpread_lookup_ov {α : Type} (base ov : List (String × α))
    (k : String) (v : α) (h : jsLookup k ov = some v) :
    jsLookup k (mergeSpread base ov) = some v := by
  unfold mergeSpread
  cases hb : jsLookup k base with
  | some w =>
    apply jsLookup_append_some
    rw [jsLookup_mapVals k (fun k' w' => (jsLookup k' ov).getD w') base, hb]
    simp [h]
  | none =>
    rw [jsLookup_append_none]
    · rw [jsLookup_filter_key k (fun k' => (jsLookup k' base).isNone) ov]
      simp [hb, h]
    · rw [jsLookup_mapVals k (fun k' w' => (jsLookup k' ov).getD w') base, hb]
      rfl

/-- A key the override object does not define keeps the base object's value
in the spread object. -/
theorem mergeSpread_lookup_base {α : Type} (base ov : List (String × α))
    (k : String) (h : jsLookup k ov = none) :
    jsLookup k (mergeSpread base ov) = jsLookup k base := by
  unfold mergeSpread
  cases hb : jsLookup k base with
  | some w =>
    apply jsLookup_append_some
    rw [jsLookup_mapVals k (fun k' w' => (jsLookup k' ov).getD w') base, hb]
    simp [h]
  | none =>
    rw [jsLookup_append_none]
    · rw [jsLookup_filter_key k (fun k' => (jsLookup k' base).isNone) ov]
      simp [hb, h]
    · rw [jsLookup_mapVals k (fun k' w' => (jsLookup k' ov).getD w') base, hb]
      rfl

/-- C3: `uploadFileToS3` never propagates an exception — every error thrown
inside its body is caught and returned as a failure result carrying the
error's message and the local path; in particular a missing local file and a
client error each produce exactly that thrown error. -/
theorem uploadFileToS3_never_throws (cfg : S3Config) (fs : FileSys)
    (send : List (String × ParamValue) → Except String String)
    (elapsedMs : Nat) (filePath s3Key : String) (opts : UploadOptions) :
    (∀ e, uploadFileToS3Body cfg fs send elapsedMs filePath s3Key opts = .error e →
      uploadFileToS3 cfg fs send elapsedMs filePath s3Key opts = .failure e filePath)
    ∧ (fs filePath = none →
        uploadFileToS3Body cfg fs send elapsedMs filePath s3Key opts =
          .error ("File not found: " ++ filePath))
    ∧ (∀ stat e, fs filePath = some stat →
        send (mkUploadParams cfg filePath s3Key stat opts) = .error e →
        uploadFileToS3Body cfg fs send elapsedMs filePath s3Key opts = .error e) := by
  refine ⟨?_, ?_, ?_⟩
  · intro e he
    unfold uploadFileToS3
    rw [he]
  · intro hfs
    unfold uploadFileToS3Body
    rw [hfs]
  · intro stat e hfs hsend
    simp only [uploadFileToS3Body, hfs, hsend]

/-- Witness for C3: with an empty filesystem the upload of `./a.txt` returns
the file-not-found failure result; with the file present and a client that
raises `network down`, it returns a failure result carrying that message. -/
theorem uploadFileToS3_never_throws_witness :
    uploadFileToS3 ⟨"johnk-files-2026", "eu-north-1"⟩ (fun _ => none)
      (fun _ => .error "network down") 0 "./a.txt" "k/a.txt" {} =
      .failure "File not found: ./a.txt" "./a.txt"
    ∧ uploadFileToS3 ⟨"johnk-files-2026", "eu-north-1"⟩
        (fun _ => some ⟨4⟩) (fun _ => .error "network down") 0 "./a.txt" "k/a.txt" {} =
      .failure "network down" "./a.txt" := by
  constructor
  · exact (uploadFileToS3_never_throws _ _ _ 0 "./a.txt" "k/a.txt" {}).1 _
      ((uploadFileToS3_never_throws _ _ _ 0 "./a.txt" "k/a.txt" {}).2.1 rfl)
  · exact (uploadFileToS3_never_throws _ _ _ 0 "./a.txt" "k/a.txt" {}).1 _
      ((uploadFileToS3_never_throws _ _ _ 0 "./a.txt" "k/a.txt" {}).2.2 ⟨4⟩ _ rfl rfl)

/-- C10: any field defined by `options.additionalParams` overrides the
otherwise-computed value of that field in the request object handed to the
client, because the spread `...options.additionalParams` comes last. -/
theorem additionalParams_override (cfg : S3Config) (filePath s3Key : String)
    (stat : FileStat) (opts : UploadOptions) (f : String) (v : ParamValue)
    (h : jsLookup f opts.additionalParams = some v) :
    jsLookup f (mkUploadParams cfg filePath s3Key stat opts) = some v :=
  mergeSpread_lookup_ov _ _ f v h

/-- Witness for C10: `additionalParams` rebinding `Bucket` makes the request
carry the overridden bucket instead of the configured one. -/
theorem additionalParams_override_witness :
    jsLookup "Bucket"
      (mkUploadParams ⟨"johnk-files-2026", "eu-north-1"⟩ "./a.txt" "k/a.txt" ⟨4⟩
        { additionalParams := [("Bucket", .str "other-bucket")] }) =
      some (.str "other-bucket") :=
  additionalParams_override _ "./a.txt" "k/a.txt" ⟨4⟩
    { additionalParams := [("Bucket", .str "other-bucket")] }
    "Bucket" (.str "other-bucket") rfl

/-- C6: with no `Body` override, the request body handed to the client is the
lazy stream of the file exactly when its size exceeds 5 MB
(5 × 1024 × 1024 bytes), and otherwise it is the buffered file contents. -/
theorem body_strategy (cfg : S3Config) (filePath s3Key : String)
    (stat : FileStat) (opts : UploadOptions)
    (hno : jsLookup "Body" opts.additionalParams = none) :
    (jsLookup "Body" (mkUploadParams cfg filePath s3Key stat opts) =
        some (.body (.streamOf filePath)) ↔ stat.size > 5 * 1024 * 1024)
    ∧ (stat.size ≤ 5 * 1024 * 1024 →
        jsLookup "Body" (mkUploadParams cfg filePath s3Key stat opts) =
          some (.body (.bytesOf filePath))) := by
  have hbase : jsLookup "Body" (baseUploadParams cfg filePath s3Key stat opts) =
      some (.body (fileContentFor stat.size filePath)) := by
    simp [baseUploadParams, jsLookup]
  have hmer : jsLookup "Body" (mkUploadParams cfg filePath s3Key stat opts) =
      some (.body (fileContentFor stat.size filePath)) := by
    unfold mkUploadParams
    rw [mergeSpread_lookup_base _ _ _ hno, hbase]
  constructor
  · rw [hmer]
    by_cases hs : stat.size > 5 * 1024 * 1024
    · simp [fileContentFor, hs]
    · simp [fileContentFor, hs]
  · intro hs
    rw [hmer]
    have : ¬ stat.size > 5 * 1024 * 1024 := by omega
    simp [fileContentFor, this]

/-- Witness for C6: a 6 MB file is streamed, a 4-byte file is buffered. -/
theorem body_strategy_witness :
    jsLookup "Body"
      (mkUploadParams ⟨"johnk-files-2026", "eu-north-1"⟩ "./big.zip" "k/big.zip"
        ⟨6 * 1024 * 1024⟩ {}) = some (.body (.streamOf "./big.zip"))
    ∧ jsLookup "Body"
        (mkUploadParams ⟨"johnk-files-2026", "eu-north-1"⟩ "./a.txt" "k/a.txt"
          ⟨4⟩ {}) = some (.body (.bytesOf "./a.txt")) :=
  ⟨(body_strategy _ "./big.zip" "k/big.zip" ⟨6 * 1024 * 1024⟩ {} rfl).1.mpr
      (by norm_num),
   (body_strategy _ "./a.txt" "k/a.txt" ⟨4⟩ {} rfl).2 (by norm_num)⟩

/-- The `duration` field of an upload result, when it is a success. -/
def UploadResult.durationOf : UploadResult → Option String
  | .success _ _ _ d => some d
  | .failure _ _ => none

/-- C8 counterexample: a successful upload whose client call took 2000 ms does
not carry the elapsed milliseconds in its duration field — the code stores
`((Date.now() - startTime) / 1000).toFixed(2)`, the elapsed seconds as a
two-decimal string (`"2.00"`), not milliseconds (`2000`). -/
theorem upload_duration_not_milliseconds :
    UploadResult.durationOf
      (uploadFileToS3 ⟨"johnk-files-2026", "eu-north-1"⟩
        (fun _ => some ⟨4⟩) (fun _ => .ok "etag-1") 2000 "./a.txt" "k/a.txt" {}) =
      some "2.00"
    ∧ UploadResult.durationOf
        (uploadFileToS3 ⟨"johnk-files-2026", "eu-north-1"⟩
          (fun _ => some ⟨4⟩) (fun _ => .ok "etag-1") 2000 "./a.txt" "k/a.txt" {}) ≠
      some (toString (2000 : Nat)) := by
  constructor
  · rfl
  · decide

/-- C8 (amended): every successful upload returns a `Success` result populated
with the destination key, the client-returned ETag, the elapsed duration in
seconds formatted with two decimals, and the URL
`https://{bucket}.s3.{region}.amazonaws.com/{destinationKey}`. -/
theorem uploadFileToS3_success_fields (cfg : S3Config) (fs : FileSys)
    (send : List (String × ParamValue) → Except String String)
    (elapsedMs : Nat) (filePath s3Key : String) (opts : UploadOptions)
    (stat : FileStat) (etag : String)
    (hfs : fs filePath = some stat)
    (hsend : send (mkUploadParams cfg filePath s3Key stat opts) = .ok etag) :
    uploadFileToS3 cfg fs send elapsedMs filePath s3Key opts =
      .success s3Key
        ("https://" ++ cfg.bucket ++ ".s3." ++ cfg.region
          ++ ".amazonaws.com/" ++ s3Key)
        etag (toFixed2ofMs elapsedMs) := by
  simp only [uploadFileToS3, uploadFileToS3Body, hfs, hsend]

/-- Witness for the amended C8 at a concrete configuration, filesystem,
client and clock. -/
theorem uploadFileToS3_success_fields_witness :
    uploadFileToS3 ⟨"johnk-files-2026", "eu-north-1"⟩
      (fun _ => some ⟨4⟩) (fun _ => .ok "etag-1") 2000 "./a.txt" "k/a.txt" {} =
      .success "k/a.txt"
        ("https://" ++ "johnk-files-2026" ++ ".s3." ++ "eu-north-1"
          ++ ".amazonaws.com/" ++ "k/a.txt")
        "etag-1" (toFixed2ofMs 2000) :=
  uploadFileToS3_success_fields ⟨"johnk-files-2026", "eu-north-1"⟩
    (fun _ => some ⟨4⟩) (fun _ => .ok "etag-1") 2000 "./a.txt" "k/a.txt" {}
    ⟨4⟩ "etag-1" rfl rfl

/-- Everything observable about one run of `uploadWithRetry`: the final
outcome (`.error` models the thrown `Upload failed after ...` error), the
sequence of backoff sleeps actually performed (in ms, in order), and how
many attempts were made. -/
structure RetryTrace where
  result : Except String UploadResult
  delays : List Nat
  attempts : Nat

/-- The message of the error thrown when the retry budget is exhausted
(line 139). JS interpolates `lastError` into the template; the model carries
the error text. -/
def retriesExhaustedMsg (maxRetries : Nat) (lastError : String) : String :=
  "Upload failed after " ++ toString maxRetries ++ " attempts: " ++ lastError

/-- The `for` loop of `uploadWithRetry` (lines 118–137). `op attempt` is the
settled outcome of `await uploadFileToS3(filePath, s3Key)` on that attempt:
`.ok r` when the call returned result `r`, `.error e` when it rejected with
an error whose text is `e`. A success result returns immediately; a failure
result records `result.error` as `lastError` and loops — with no sleep,
because the `setTimeout` backoff sits only in the `catch` branch; a rejection
records the error and sleeps `1000 * 2 ^ attempt` ms when attempts remain. -/
def uploadWithRetryGo (op : Nat → Except String UploadResult)
    (maxRetries : Nat) :
    Nat → Nat → String → List Nat → Nat → RetryTrace
  | 0, _, lastError, delays, done =>
    { result := .error (retriesExhaustedMsg maxRetries lastError),
      delays := delays, attempts := done }
  | fuel + 1, attempt, _lastError, delays, done =>
    match op attempt with
    | .ok (.success k u e d) =>
      { result := .ok (.success k u e d), delays := delays, attempts := done + 1 }
    | .ok (.failure err _fp) =>
      uploadWithRetryGo op maxRetries fuel (attempt + 1) err delays (done + 1)
    | .error e =>
      uploadWithRetryGo op maxRetries fuel (attempt + 1) e
        (if attempt < maxRetries then delays ++ [1000 * 2 ^ attempt] else delays)
        (done + 1)

/-- `uploadWithRetry` (lines 115–140): run the attempt loop from attempt 1
with `maxRetries` loop iterations remaining (the fuel argument of the loop
encoding is `maxRetries + 1 - attempt`, the number of iterations the `for`
loop still has). `lastError` starts out `undefined` in JS; its initial text
is never thrown when at least one attempt runs. -/
def uploadWithRetry (op : Nat → Except String UploadResult)
    (maxRetries : Nat) : RetryTrace :=
  uploadWithRetryGo op maxRetries maxRetries 1 "undefined" [] 0

/-- An attempt outcome that is not a success result: a returned failure
result or a rejection. -/
def isFailureOutcome : Except String UploadResult → Bool
  | .ok (.success _ _ _ _) => false
  | .ok (.failure _ _) => true
  | .error _ => true

/-- The error text an attempt outcome stores into `lastError`. -/
def errTextOf : Except String UploadResult → String
  | .ok (.success _ _ _ _) => ""
  | .ok (.failure e _) => e
  | .error e => e

theorem uploadWithRetryGo_all_fail (op : Nat → Except String UploadResult)
    (maxRetries : Nat) :
    ∀ fuel attempt lastError delays done,
      attempt + fuel = maxRetries + 1 →
      (∀ i, attempt ≤ i → i ≤ maxRetries → isFailureOutcome (op i) = true) →
      (uploadWithRetryGo op maxRetries fuel attempt lastError delays done).result =
        .error (retriesExhaustedMsg maxRetries
          (if 1 ≤ fuel then errTextOf (op maxRetries) else lastError))
      ∧ (uploadWithRetryGo op maxRetries fuel attempt lastError delays done).attempts =
        done + fuel := by
  intro fuel
  induction fuel with
  | zero =>
    intro attempt _lastError delays done _ _
    simp [uploadWithRetryGo]
  | succ fuel ih =>
    intro attempt lastError delays done hfuel hfail
    have hle : attempt ≤ maxRetries := by omega
    have hcur : isFailureOutcome (op attempt) = true :=
      hfail attempt le_rfl hle
    have hrec : ∀ err,
        err = errTextOf (op attempt) →
        ∀ delays',
          (uploadWithRetryGo op maxRetries fuel (attempt + 1) err delays' (done + 1)).result =
            .error (retriesExhaustedMsg maxRetries (errTextOf (op maxRetries)))
          ∧ (uploadWithRetryGo op maxRetries fuel (attempt + 1) err delays' (done + 1)).attempts =
            done + (fuel + 1) := by
      intro err herr delays'
      have hnext := ih (attempt + 1) err delays' (done + 1) (by omega)
        (fun i hi₁ hi₂ => hfail i (by omega) hi₂)
      by_cases hmore : 1 ≤ fuel
      · rw [if_pos hmore] at hnext
        exact ⟨hnext.1, by rw [hnext.2]; omega⟩
      · have hat : attempt = maxRetries := by omega
        rw [if_neg hmore] at hnext
        refine ⟨?_, by rw [hnext.2]; omega⟩
        rw [hnext.1, herr, hat]
    rw [uploadWithRetryGo]
    cases hop : op attempt with
    | ok r =>
      cases r with
      | success k u e d => rw [hop] at hcur; simp [isFailureOutcome] at hcur
      | failure err fp =>
        have := hrec err (by rw [hop]; rfl) delays
        simpa using this
    | error e =>
      have := hrec e (by rw [hop]; rfl)
        (if attempt < maxRetries then delays ++ [1000 * 2 ^ attempt] else delays)
      simpa using this

/-- C4: whenever every one of the `maxRetries ≥ 1` attempts fails (by
returning a failure result or by rejecting), `uploadWithRetry` terminates by
throwing the `Upload failed after {maxRetries} attempts: {lastError}` error —
a raised error, not a returned failure result — whose message carries the
last attempt's error text, after performing exactly `maxRetries` attempts. -/
theorem uploadWithRetry_exhausts (op : Nat → Except String UploadResult)
    (maxRetries : Nat) (hpos : 1 ≤ maxRetries)
    (hfail : ∀ i, 1 ≤ i → i ≤ maxRetries → isFailureOutcome (op i) = true) :
    (uploadWithRetry op maxRetries).result =
      .error (retriesExhaustedMsg maxRetries (errTextOf (op maxRetries)))
    ∧ (uploadWithRetry op maxRetries).attempts = maxRetries := by
  have h := uploadWithRetryGo_all_fail op maxRetries maxRetries 1
    "undefined" [] 0 (by omega) hfail
  rw [if_pos hpos] at h
  unfold uploadWithRetry
  exact ⟨h.1, by rw [h.2]; omega⟩

/-- Witness for C4: two rejecting attempts exhaust a budget of 2 and throw
the exhaustion error carrying the last error text. -/
theorem uploadWithRetry_exhausts_witness :
    (uploadWithRetry (fun _ => .error "boom") 2).result =
      .error (retriesExhaustedMsg 2 (errTextOf (.error "boom")))
    ∧ (uploadWithRetry (fun _ => .error "boom") 2).attempts = 2 :=
  uploadWithRetry_exhausts (fun _ => .error "boom") 2 (by decide)
    (fun _ _ _ => rfl)

/-- C1 (code bug): with `maxRetries = 3` against a client that fails every
attempt with a network error, `uploadFileToS3` catches the error internally
and returns a failure result, so `uploadWithRetry`'s `catch` branch — the
only place the exponential-backoff sleep exists — never runs: exactly 3
attempts are made and the list of backoff delays is empty, not
`[2000, 4000]`, before the exhaustion error is thrown. -/
theorem uploadWithRetry_no_backoff_on_failure_results :
    (uploadWithRetry
      (fun _ => .ok (uploadFileToS3 ⟨"johnk-files-2026", "eu-north-1"⟩
        (fun _ => some ⟨4⟩) (fun _ => .error "network timeout") 0
        "./big.zip" "archives/big.zip" {})) 3).attempts = 3
    ∧ (uploadWithRetry
        (fun _ => .ok (uploadFileToS3 ⟨"johnk-files-2026", "eu-north-1"⟩
          (fun _ => some ⟨4⟩) (fun _ => .error "network timeout") 0
          "./big.zip" "archives/big.zip" {})) 3).delays = []
    ∧ (uploadWithRetry
        (fun _ => .ok (uploadFileToS3 ⟨"johnk-files-2026", "eu-north-1"⟩
          (fun _ => some ⟨4⟩) (fun _ => .error "network timeout") 0
          "./big.zip" "archives/big.zip" {})) 3).result =
      .error "Upload failed after 3 attempts: network timeout" := by
  refine ⟨?_, ?_, ?_⟩ <;> rfl

/-- One entry of the array handed to `uploadMultipleFiles`:
`{ filePath, s3Key }`. -/
structure FileSpec where
  filePath : String
  s3Key : String

/-- What `uploadMultipleFiles` returns and prints: the `Promise.allSettled`
results array together with the counted summary. -/
structure BatchSummary (α : Type) where
  results : List (Except String α)
  successful : Nat
  failed : Nat

/-- `r.status === 'fulfilled'` on a settled promise. -/
def isFulfilled {α : Type} : Except String α → Bool
  | .ok _ => true
  | .error _ => false

/-- `uploadMultipleFiles(files)` from the basic upload script (lines 247–263):
settle one `uploadFileToS3(file.filePath, file.s3Key)` promise per entry (the
oracle `outcome` gives each task's settled state — `.ok` for fulfilled,
`.error` for rejected, since that script's uploader rethrows on failure),
then count fulfilled and rejected results. -/
def uploadMultipleFiles {α : Type} (outcome : FileSpec → Except String α)
    (files : List FileSpec) : BatchSummary α :=
  let results := files.map (fun f => outcome f)
  { results := results,
    successful := (results.filter (fun r => isFulfilled r)).length,
    failed := (results.filter (fun r => !(isFulfilled r))).length }

theorem length_filter_map_outcome {α β : Type} (g : α → β) (q : β → Bool) :
    ∀ l : List α, ((l.map g).filter q).length = (l.filter (fun x => q (g x))).length := by
  intro l
  induction l with
  | nil => rfl
  | cons hd tl ih =>
    cases hq : q (g hd) <;> simp [List.filter, hq, ih]

theorem length_filter_add_length_filter_not {α : Type} (q : α → Bool) :
    ∀ l : List α, (l.filter q).length + (l.filter (fun x => !(q x))).length = l.length := by
  intro l
  induction l with
  | nil => rfl
  | cons hd tl ih =>
    cases hq : q hd <;> simp [List.filter, hq] <;> omega

/-- C2: for every list of `n` submitted tasks of which exactly `k` settle as
failures, `uploadMultipleFiles` yields exactly one result per task — the
`i`-th result is the `i`-th task's outcome, so none is dropped and none is
duplicated — and its summary counts are `successful = n - k` and
`failed = k`, with `results` of length `n`. -/
theorem uploadMultipleFiles_summary {α : Type}
    (outcome : FileSpec → Except String α) (files : List FileSpec) :
    (uploadMultipleFiles outcome files).results.length = files.length
    ∧ (uploadMultipleFiles outcome files).successful =
        files.length - (files.filter (fun f => !(isFulfilled (outcome f)))).length
    ∧ (uploadMultipleFiles outcome files).failed =
        (files.filter (fun f => !(isFulfilled (outcome f)))).length
    ∧ ∀ i, (uploadMultipleFiles outcome files).results.get? i =
        (files.get? i).map outcome := by
  refine ⟨by simp [uploadMultipleFiles], ?_, ?_, ?_⟩
  · show ((files.map (fun f => outcome f)).filter (fun r => isFulfilled r)).length = _
    rw [length_filter_map_outcome]
    have hsum := length_filter_add_length_filter_not
      (fun f => isFulfilled (outcome f)) files
    omega
  · show ((files.map (fun f => outcome f)).filter (fun r => !(isFulfilled r))).length = _
    rw [length_filter_map_outcome]
  · intro i
    simp [uploadMultipleFiles, List.get?_eq_getElem?, List.getElem?_map]

mutual
/-- One entry of a directory listing, with what `fs.statSync` reports for it:
a regular file, a subdirectory with its own listing, or anything else
(socket, FIFO, device, ... — `isFile()` and `isDirectory()` both false). -/
inductive FsEntry where
  | file (name : String) (stat : FileStat)
  | dir (name : String) (entries : FsDir)
  | other (name : String)
/-- A directory listing: the entries `fs.readdirSync` returns, in order. -/
inductive FsDir where
  | nil
  | cons (head : FsEntry) (tail : FsDir)
end

/-- Line 97 of `s3-upload-advanced.js`:
`s3Prefix ? s3Prefix + '/' + file : file` — the empty string is falsy. -/
def joinKey (pre name : String) : String :=
  if pre = "" then name else pre ++ "/" ++ name

mutual
/-- One iteration of the `uploadDirectory` loop (lines 92–107): a file emits
one (localPath, s3Key) upload task, a subdirectory recurses with the joined
path and key, and any other entry emits nothing. -/
def walkEntry (dirPath pre : String) : FsEntry → List (String × String)
  | .file name _ => [(dirPath ++ "/" ++ name, joinKey pre name)]
  | .dir name sub => walkDir (dirPath ++ "/" ++ name) (joinKey pre name) sub
  | .other _ => []
/-- `uploadDirectory(dirPath, s3Prefix)` (lines 88–110) as the ordered list
of upload tasks it submits (`Promise.all` then yields exactly one result per
task, in this order). -/
def walkDir (dirPath pre : String) : FsDir → List (String × String)
  | .nil => []
  | .cons e rest => walkEntry dirPath pre e ++ walkDir dirPath pre rest
end

mutual
/-- Slash-joined relative paths of the regular files reachable from an
entry: the measuring stick for the destination-key invariant. -/
def relPathsEntry : FsEntry → List String
  | .file name _ => [name]
  | .dir name sub => (relPathsDir sub).map (fun r => name ++ "/" ++ r)
  | .other _ => []
/-- Slash-joined relative paths of all regular files under a listing. -/
def relPathsDir : FsDir → List String
  | .nil => []
  | .cons e rest => relPathsEntry e ++ relPathsDir rest
end

mutual
/-- Every file and directory name in the tree is nonempty, as
`fs.readdirSync` guarantees for real directory listings. -/
def entryNamesOk : FsEntry → Bool
  | .file name _ => !(name == "")
  | .dir name sub => !(name == "") && dirNamesOk sub
  | .other _ => true
/-- `entryNamesOk` over a whole listing. -/
def dirNamesOk : FsDir → Bool
  | .nil => true
  | .cons e rest => entryNamesOk e && dirNamesOk rest
end

theorem strAppend_assoc (a b c : String) : a ++ b ++ c = a ++ (b ++ c) := by
  apply String.ext
  simp [String.data_append, List.append_assoc]

theorem strAppend_slash_ne_empty (a b : String) : a ++ "/" ++ b ≠ "" := by
  intro h
  have hd := congrArg String.data h
  simp [String.data_append] at hd

theorem joinKey_assoc (pre n r : String) (hn : n ≠ "") :
    joinKey (joinKey pre n) r = joinKey pre (n ++ "/" ++ r) := by
  by_cases hp : pre = ""
  · subst hp
    simp [joinKey, hn, strAppend_slash_ne_empty]
  · have h1 : pre ++ "/" ++ n ≠ "" := strAppend_slash_ne_empty pre n
    simp only [joinKey, if_neg hp]
    rw [if_neg h1]
    simp [strAppend_assoc]

mutual
theorem walkEntry_keys_aux : ∀ (dirPath pre : String) (e : FsEntry),
    entryNamesOk e = true →
    (walkEntry dirPath pre e).map Prod.snd = (relPathsEntry e).map (joinKey pre)
  | dirPath, pre, .file name stat, _ => by
    simp [walkEntry, relPathsEntry]
  | dirPath, pre, .dir name sub, h => by
    have hn : name ≠ "" := by
      simp [entryNamesOk] at h
      simpa using h.1
    have hsub : dirNamesOk sub = true := by
      simp [entryNamesOk] at h
      exact h.2
    have ih := walkDir_keys_aux (dirPath ++ "/" ++ name) (joinKey pre name) sub hsub
    simp only [walkEntry, relPathsEntry, ih, List.map_map]
    apply List.map_congr_left
    intro r _
    exact joinKey_assoc pre name r hn
  | dirPath, pre, .other name, _ => by
    simp [walkEntry, relPathsEntry]
theorem walkDir_keys_aux : ∀ (dirPath pre : String) (d : FsDir),
    dirNamesOk d = true →
    (walkDir dirPath pre d).map Prod.snd = (relPathsDir d).map (joinKey pre)
  | dirPath, pre, .nil, _ => by
    simp [walkDir, relPathsDir]
  | dirPath, pre, .cons e rest, h => by
    have he : entryNamesOk e = true := by
      simp [dirNamesOk] at h
      exact h.1
    have hrest : dirNamesOk rest = true := by
      simp [dirNamesOk] at h
      exact h.2
    have ih₁ := walkEntry_keys_aux dirPath pre e he
    have ih₂ := walkDir_keys_aux dirPath pre rest hrest
    simp [walkDir, relPathsDir, ih₁, ih₂]
end

/-- C5: for every tree whose entry names are nonempty and every key prefix,
the destination keys the directory walk emits are exactly the slash-joined
relative paths of its files, each joined under the prefix (`P/a/b/c.ext`,
or `a/b/c.ext` when the prefix is empty), nesting preserved, in traversal
order. -/
theorem uploadDirectory_keys (dirPath pre : String) (d : FsDir)
    (h : dirNamesOk d = true) :
    (walkDir dirPath pre d).map Prod.snd = (relPathsDir d).map (joinKey pre) :=
  walkDir_keys_aux dirPath pre d h

/-- Witness for C5 on the tree `root/{a.txt, sub/b.txt}` with prefix
`uploads`: the emitted key set is exactly
`{uploads/a.txt, uploads/sub/b.txt}`. -/
theorem uploadDirectory_keys_witness :
    dirNamesOk (.cons (.file "a.txt" ⟨1⟩)
      (.cons (.dir "sub" (.cons (.file "b.txt" ⟨1⟩) .nil)) .nil)) = true
    ∧ (walkDir "root" "uploads"
        (.cons (.file "a.txt" ⟨1⟩)
          (.cons (.dir "sub" (.cons (.file "b.txt" ⟨1⟩) .nil)) .nil))).map Prod.snd =
      (relPathsDir (.cons (.file "a.txt" ⟨1⟩)
        (.cons (.dir "sub" (.cons (.file "b.txt" ⟨1⟩) .nil)) .nil))).map (joinKey "uploads")
    ∧ (relPathsDir (.cons (.file "a.txt" ⟨1⟩)
        (.cons (.dir "sub" (.cons (.file "b.txt" ⟨1⟩) .nil)) .nil))).map (joinKey "uploads") =
      ["uploads/a.txt", "uploads/sub/b.txt"] :=
  ⟨rfl,
   uploadDirectory_keys "root" "uploads"
     (.cons (.file "a.txt" ⟨1⟩)
       (.cons (.dir "sub" (.cons (.file "b.txt" ⟨1⟩) .nil)) .nil)) rfl,
   rfl⟩

/-- Concatenation of directory listings. -/
def FsDir.append : FsDir → FsDir → FsDir
  | .nil, d => d
  | .cons e rest, d => .cons e (rest.append d)

theorem walkDir_append (dirPath pre : String) :
    ∀ a b : FsDir, walkDir dirPath pre (a.append b) =
      walkDir dirPath pre a ++ walkDir dirPath pre b
  | .nil, b => by simp [FsDir.append, walkDir]
  | .cons e rest, b => by
    simp [FsDir.append, walkDir, walkDir_append dirPath pre rest b]

/-- C9: a directory entry whose stat reports neither a regular file nor a
directory contributes no upload task (hence no result) to the walk, and the
remaining entries are processed exactly as without it, wherever in the
listing it occurs. -/
theorem uploadDirectory_skips_special (dirPath pre name : String)
    (before after : FsDir) :
    walkDir dirPath pre (before.append (.cons (.other name) after)) =
      walkDir dirPath pre (before.append after) := by
  simp [walkDir_append, walkDir, walkEntry]
